import Mathlib

/-!
Verification development for the sapix request-routing layer.

Shallow embedding of:
  * the pattern matcher (`matchURLToPatterns`, `matchPattern`,
    `validateDataType`, `buildMappedPattern`, `buildRequiredKey` from
    lib/utils/patternMatcher.mjs),
  * the TTL/LRU cache (`Cache` from lib/utils/cache.mjs),
  * the dispatcher fragment of `SapixRoutes.routeHandle` and
    `SapixRoutes.executeMiddlewares` (lib/route.js, the version with
    middleware support).

JavaScript `Map`s are embedded as association lists accessed through
`alGet`; `alSet` places the freshest binding first, which preserves the
observable `get` semantics of `Map.set` (last write wins).  JavaScript
strings are Lean `String`s; the string surgery (`split`, `startsWith`,
`slice`) is implemented structurally over `String.data` so that all
definitions evaluate inside the kernel.
-/

/-! ### Association lists standing in for JavaScript Maps -/

/-- JS `m.get(k)`: first binding for `k`, if any. -/
def alGet {α : Type} (l : List (String × α)) (k : String) : Option α :=
  match l with
  | [] => none
  | (k', v) :: t => if k' = k then some v else alGet t k

/-- Remove every binding of `k` (with unique keys, the single binding). -/
def alErase {α : Type} (l : List (String × α)) (k : String) :
    List (String × α) :=
  match l with
  | [] => []
  | (k', v) :: t => if k' = k then alErase t k else (k', v) :: alErase t k

/-- JS `m.set(k, v)`: bind `k` to `v`; observably `alGet (alSet k v l) k = some v`
and other keys are untouched. -/
def alSet {α : Type} (k : String) (v : α) (l : List (String × α)) :
    List (String × α) :=
  (k, v) :: alErase l k

/-! ### Structural string helpers (JS `split`, `startsWith`, `endsWith`) -/

def splitChAux (c : Char) : List Char → List Char → List (List Char)
  | [], acc => [acc.reverse]
  | x :: xs, acc =>
      if x = c then acc.reverse :: splitChAux c xs []
      else splitChAux c xs (x :: acc)

/-- JS `str.split(c)` for a single-character separator. -/
def splitCh (c : Char) (l : List Char) : List (List Char) := splitChAux c l []

/-- JS `s.startsWith(p)`. -/
def strStarts (s p : String) : Bool := List.isPrefixOf p.data s.data

/-- JS `s.endsWith(p)`. -/
def strEnds (s p : String) : Bool := List.isSuffixOf p.data s.data

/-- JS `path.split('/').filter(Boolean)` — the segment lists used everywhere in
the matcher (patternMatcher.mjs lines 226-227). -/
def segsOf (s : String) : List String :=
  ((splitCh '/' s.data).filter (fun x => x ≠ [])).map String.mk

/-! ### `validateDataType` (patternMatcher.mjs lines 338-369)

Each case implements the corresponding regular expression from the source,
rewritten structurally over the character list. -/

/-- JS regex `\s` on the characters that can occur here. -/
def jsSpace (c : Char) : Bool :=
  c = ' ' || c = '\t' || c = '\n' || c = '\r' || c = '\x0b' || c = '\x0c'

def isHexLower (c : Char) : Bool := c.isDigit || ('a' ≤ c && c ≤ 'f')

def isHexDigitCh (c : Char) : Bool :=
  c.isDigit || ('a' ≤ c && c ≤ 'f') || ('A' ≤ c && c ≤ 'F')

/-- Regex `/^[a-zA-Z]+$/` -/
def lettersOnly (l : List Char) : Bool := !l.isEmpty && l.all Char.isAlpha

/-- Regex `/^\d+$/` -/
def digitsOnly (l : List Char) : Bool := !l.isEmpty && l.all Char.isDigit

/-- One alternation branch of the IPv4 regex:
`25[0-5]|2[0-4]\d|1\d{2}|\d{1,2}`. -/
def isOctet (l : List Char) : Bool :=
  match l with
  | [a] => a.isDigit
  | [a, b] => a.isDigit && b.isDigit
  | [a, b, c] =>
      (a = '1' && b.isDigit && c.isDigit) ||
      (a = '2' && '0' ≤ b && b ≤ '4' && c.isDigit) ||
      (a = '2' && b = '5' && '0' ≤ c && c ≤ '5')
  | _ => false

def emailOkCh (c : Char) : Bool := !jsSpace c && c ≠ '@'

/-- Regex `/^[^\s@]+@[^\s@]+\.[^\s@]+$/`: exactly one `@`, a non-empty local part,
and a domain that splits around some interior dot. -/
def validEmail (l : List Char) : Bool :=
  match splitCh '@' l with
  | [loc, dom] =>
      !loc.isEmpty && loc.all emailOkCh && dom.all emailOkCh &&
        ((dom.drop 1).dropLast).contains '.'
  | _ => false

/-- Regex `/^\+?\d{1,15}$/` -/
def validPhone (l : List Char) : Bool :=
  let d := match l with
    | '+' :: rest => rest
    | rest => rest
  !d.isEmpty && d.length ≤ 15 && d.all Char.isDigit

/-- Helper: validateDataType from patternMatcher.mjs, lines 338-369. -/
def validateDataType (segment ty : String) : Bool :=
  let l := segment.data
  if ty = "number" then digitsOnly l
  else if ty = "string" then lettersOnly l
  else if ty = "alphanumeric" then !l.isEmpty && l.all Char.isAlphanum
  else if ty = "boolean" then segment = "true" || segment = "false"
  else if ty = "version" then
    (match l with
     | 'v' :: rest => digitsOnly rest
     | _ => false)
  else if ty = "uuid" then
    (let parts := splitCh '-' l
     parts.map List.length = [8, 4, 4, 4, 12] &&
       parts.all (fun p => p.all isHexLower))
  else if ty = "date" then
    (let parts := splitCh '-' l
     parts.map List.length = [4, 2, 2] && parts.all (fun p => p.all Char.isDigit))
  else if ty = "email" then validEmail l
  else if ty = "phone" then validPhone l
  else if ty = "ip" then
    (let parts := splitCh '.' l
     parts.length = 4 && parts.all isOctet)
  else if ty = "hex" then !l.isEmpty && l.all isHexDigitCh
  else if ty = "slug" then
    (let parts := splitCh '-' l
     parts.all (fun p => !p.isEmpty && p.all (fun c => c.isLower || c.isDigit)))
  else if ty = "else" then lettersOnly l
  else true

/-- The thirteen type names carried by the validator's switch (equivalently,
the keys of `dataTypePriority`). -/
def knownDataTypes : List String :=
  ["number", "string", "alphanumeric", "boolean", "version", "uuid", "date",
   "email", "phone", "ip", "hex", "slug", "else"]

/-- Score-weight table `dataTypePriority` (patternMatcher.mjs lines 203-217). -/
def dataTypePriority : List (String × Int) :=
  [("number", 20), ("string", 20), ("uuid", 20), ("email", 15),
   ("version", 15), ("alphanumeric", 15), ("boolean", 15), ("date", 15),
   ("phone", 15), ("ip", 15), ("hex", 15), ("slug", 15), ("else", 10)]

/-- JS `dataTypePriority.get(dataType) || 10` (line 290; no stored weight is 0,
so JS falsiness coincides with absence). -/
def priorityOf (ty : String) : Int :=
  match alGet dataTypePriority ty with
  | some p => p
  | none => 10

/-! ### `matchPattern` (patternMatcher.mjs lines 265-320) -/

structure MatchRes where
  score : Int
  dataTypes : List (String × Option String)
  params : List (String × String)
  deriving DecidableEq, Repr

/-- An early `return { score: -1, dataTypes: new Map(), params: {} }`. -/
def rejectRes : MatchRes := ⟨-1, [], []⟩

/-- JS `insideBrackets.split('=')[0]` of a `[:name=type]` segment: the
parameter name (line 276-277). -/
def typedParamOf (pp : String) : String :=
  String.mk ((splitCh '=' ((pp.data.drop 2).dropLast)).headD [])

/-- JS `insideBrackets.split('=')[1]` of a `[:name=type]` segment: the declared
type; a missing piece (JS `undefined`) is represented as the empty string,
which is falsy exactly like `undefined` is (line 276-277). -/
def typedTypeOf (pp : String) : String :=
  String.mk (((splitCh '=' ((pp.data.drop 2).dropLast)).drop 1).headD [])

/-- JS `patternPart.slice(1)` of a `:name` segment (line 296). -/
def untypedParamOf (pp : String) : String := String.mk pp.data.tail

/-- The segment loop of `matchPattern`, with the accumulated score and the
`dataTypes` / `params` maps threaded through.  `fps` is walked positionally
alongside `pps` (the caller guarantees equal length). -/
def matchPatternGo (fps pps : List String) (score : Int)
    (dts : List (String × Option String)) (ps : List (String × String)) :
    MatchRes :=
  match pps with
  | [] => ⟨score, dts, ps⟩
  | pp :: ppRest =>
    let fp := fps.headD ""
    if strStarts pp "[:" && strEnds pp "]" then
      -- typed dynamic segment `[:name=type]` (lines 274-293); JS
      -- `!param || !dataType` rejects a missing or empty piece
      if typedParamOf pp = "" || typedTypeOf pp = "" then rejectRes
      else if !validateDataType fp (typedTypeOf pp) then rejectRes
      else
        matchPatternGo fps.tail ppRest (score + priorityOf (typedTypeOf pp))
          (alSet (typedParamOf pp) (some (typedTypeOf pp)) dts)
          (alSet (typedParamOf pp) fp ps)
    else if strStarts pp ":" then
      -- untyped dynamic segment `:name` (lines 294-305); note that the
      -- literal `:else` also takes this branch
      if untypedParamOf pp = "" then rejectRes
      else
        matchPatternGo fps.tail ppRest (score + 10)
          (alSet (untypedParamOf pp) none dts)
          (alSet (untypedParamOf pp) fp ps)
    else if pp = fp then
      -- exact static match (lines 306-308)
      matchPatternGo fps.tail ppRest (score + 20) dts ps
    else if pp = ":else" then
      -- fallback branch (lines 309-312); unreachable, because any string
      -- equal to ":else" already satisfied `strStarts pp ":"` above
      matchPatternGo fps.tail ppRest (score + 5) (alSet "else" none dts) ps
    else rejectRes

/-- JS `matchPattern(fileParts, patternParts, dataTypePriority)`. -/
def matchPattern (fps pps : List String) : MatchRes :=
  matchPatternGo fps pps 0 [] []

/-! ### `buildMappedPattern` and `buildRequiredKey` (lines 322-335, 182-198) -/

/-- JS `array.join('/')`. -/
def joinSlash : List String → String
  | [] => ""
  | [x] => x
  | x :: xs => x ++ "/" ++ joinSlash xs

/-- One segment of `buildMappedPattern`: `[:name=type]` is rewritten to
`:name`; both `:name` and static segments are returned unchanged. -/
def mapSeg (part : String) : String :=
  if strStarts part "[:" && strEnds part "]" then ":" ++ typedParamOf part
  else part

def buildMappedPattern (pps : List String)
    (_dts : List (String × Option String)) : String :=
  joinSlash (pps.map mapSeg)

/-- One segment of `buildRequiredKey`.  For a dynamic segment the stored type
is looked up: a `null` type keeps `:key`, a present type rebuilds
`[:key=type]`.  A key missing from the map is JS `undefined`, which fails the
`=== null` test and is interpolated literally. -/
def requiredKeySeg (dts : List (String × Option String)) (seg : String) :
    String :=
  if strStarts seg ":" then
    let key := String.mk seg.data.tail
    match alGet dts key with
    | some none => ":" ++ key
    | some (some ty) => "[:" ++ key ++ "=" ++ ty ++ "]"
    | none => "[:" ++ key ++ "=undefined]"
  else seg

def buildRequiredKey (pattern : String) (dts : List (String × Option String)) :
    String :=
  joinSlash (((splitCh '/' pattern.data).map String.mk).map (requiredKeySeg dts))

/-! ### The per-file selection loop of `matchURLToPatterns` (lines 219-259) -/

structure MatchEntry where
  pattern : String
  dataTypes : List (String × Option String)
  required_key : String
  params : List (String × String)
  deriving DecidableEq, Repr

/-- The running `bestMatch` / `highestScore` / `bestDataTypes` / `bestParams`
state of the candidate loop. -/
structure Best where
  score : Int
  mPattern : Option String
  dataTypes : List (String × Option String)
  params : List (String × String)
  deriving DecidableEq, Repr

def initBest : Best := ⟨-1, none, [], []⟩

/-- One iteration of `patterns.forEach` (lines 225-240): candidates of a
different segment count are skipped, and a strictly higher score replaces
the current best. -/
def stepBest (fileParts : List String) (acc : Best) (pat : String) : Best :=
  let pps := segsOf pat
  if fileParts.length = pps.length then
    let r := matchPattern fileParts pps
    if acc.score < r.score then
      ⟨r.score, some (buildMappedPattern pps r.dataTypes), r.dataTypes,
        r.params⟩
    else acc
  else acc

def bestFor (file : String) (patterns : List String) : Best :=
  patterns.foldl (stepBest (segsOf file)) initBest

/-- Lines 242-258: `if (bestMatch)` — both `null` and the empty string are
falsy, so both produce the degraded entry whose pattern is the file itself. -/
def mkEntry (file : String) (b : Best) : MatchEntry :=
  match b.mPattern with
  | some bm =>
      if bm = "" then ⟨file, [], file, []⟩
      else ⟨bm, b.dataTypes, buildRequiredKey bm b.dataTypes, b.params⟩
  | none => ⟨file, [], file, []⟩

/-- The mapping computed for one file by `matchURLToPatterns`. -/
def matchOne (file : String) (patterns : List String) : MatchEntry :=
  mkEntry file (bestFor file patterns)

/-- JS `matchURLToPatterns(files, patterns)` as an association list. -/
def matchURLToPatterns (files patterns : List String) :
    List (String × MatchEntry) :=
  files.map (fun f => (f, matchOne f patterns))

/-- The effective score a candidate contributes to the selection loop: a
candidate of the wrong segment count is never scored and can never replace
the best (represented by the sentinel `-1`, which the strict `<` ignores). -/
def scoreOf (fileParts : List String) (pat : String) : Int :=
  if fileParts.length = (segsOf pat).length then
    (matchPattern fileParts (segsOf pat)).score
  else -1

/-- The genuine (non-degraded) entry the selection loop builds from a
winning candidate `pat`. -/
def mkGenuine (file pat : String) : MatchEntry :=
  let r := matchPattern (segsOf file) (segsOf pat)
  let bm := buildMappedPattern (segsOf pat) r.dataTypes
  ⟨bm, r.dataTypes, buildRequiredKey bm r.dataTypes, r.params⟩

/-- The `Best` state the loop adopts when candidate `c` strictly beats the
running best (lines 233-238). -/
def candBest (fp : List String) (c : String) : Best :=
  let r := matchPattern fp (segsOf c)
  ⟨scoreOf fp c, some (buildMappedPattern (segsOf c) r.dataTypes), r.dataTypes,
    r.params⟩

/-! ### The cache (lib/utils/cache.mjs)

Time is an explicit `now : Nat` standing for `Date.now()`.  The insertion
order of the underlying `Map` doubles as the recency order: the head of
`entries` is the least recently used binding.  Lifecycle notifications are
returned as an event list.  The per-entry `setTimeout` sweep and the periodic
cleanup are real-time housekeeping duplicating the read-path expiry and are
not part of this model. -/

inductive MemEvent (α : Type) where
  | evict (k : String) (v : α)
  | expired (k : String) (v : α)
  | setEv (k : String) (v : α)
  | getEv (k : String) (v : α)
  | delEv (k : String) (v : α)
  deriving DecidableEq, Repr

structure MemEntry (α : Type) where
  value : α
  expiry : Option Nat
  deriving DecidableEq, Repr

structure MemCache (α : Type) where
  maxSize : Option Nat            -- `none` models the default `Infinity`
  entries : List (String × MemEntry α)
  deriving DecidableEq, Repr

def MemCache.empty {α : Type} (maxSize : Option Nat) : MemCache α :=
  ⟨maxSize, []⟩

/-- JS `this._cache.has(key)`. -/
def MemCache.hasKey {α : Type} (c : MemCache α) (k : String) : Bool :=
  c.entries.any (fun e => e.1 = k)

/-- JS `this._cache.delete(key)` (all bindings of `k`; with unique keys this is
the single `Map` binding). -/
def eraseKey {α : Type} (l : List (String × MemEntry α)) (k : String) :
    List (String × MemEntry α) :=
  alErase l k

/-- JS `this._cache.size >= this._maxSize` (`Infinity` is never reached). -/
def MemCache.atCapacity {α : Type} (c : MemCache α) : Bool :=
  match c.maxSize with
  | some m => m ≤ c.entries.length
  | none => false

/-- JS `Cache.set(key, value, ttl)` (cache.mjs lines 165-189).  `ttl = none`
models the explicit `null` argument (`typeof null !== 'number'`, so the
expiry is `null`); the omitted-argument default is `MemCache.setD`. -/
def MemCache.set {α : Type} (c : MemCache α) (now : Nat) (k : String) (v : α)
    (ttl : Option Nat) : MemCache α × List (MemEvent α) :=
  let step :
      List (String × MemEntry α) × List (MemEvent α) :=
    if c.hasKey k then
      -- delete first, to refresh the key's recency position
      (eraseKey c.entries k, [])
    else if c.atCapacity then
      match c.entries with
      | [] => (c.entries, [])
        -- only reachable with maxSize = 0, where the source would fault
        -- reading `lruEntry.value` of an undefined entry
      | lru :: rest => (rest, [MemEvent.evict lru.1 lru.2.value])
    else (c.entries, [])
  let expiry := ttl.map (fun t => now + t)
  (⟨c.maxSize, step.1 ++ [(k, ⟨v, expiry⟩)]⟩,
    step.2 ++ [MemEvent.setEv k v])

/-- JS `Cache.set(key, value)` with the defaulted `ttl = 86400000` (24 hours). -/
def MemCache.setD {α : Type} (c : MemCache α) (now : Nat) (k : String)
    (v : α) : MemCache α × List (MemEvent α) :=
  c.set now k v (some 86400000)

/-- JS `Cache.get(key)` (cache.mjs lines 196-211): absent and expired keys read
as `undefined`; an expired entry is deleted with an `expired` event; a live
read refreshes the recency position and emits a `get` event. -/
def MemCache.get {α : Type} (c : MemCache α) (now : Nat) (k : String) :
    Option α × MemCache α × List (MemEvent α) :=
  match c.entries.find? (fun e => e.1 = k) with
  | none => (none, c, [])
  | some (_, e) =>
    let isExpired :=
      match e.expiry with
      | some t => decide (t ≤ now)
      | none => false
    if isExpired then
      (none, ⟨c.maxSize, eraseKey c.entries k⟩, [MemEvent.expired k e.value])
    else
      (some e.value, ⟨c.maxSize, eraseKey c.entries k ++ [(k, e)]⟩,
        [MemEvent.getEv k e.value])

/-- JS `Cache.delete(key)` (cache.mjs lines 218-226). -/
def MemCache.del {α : Type} (c : MemCache α) (k : String) :
    Bool × MemCache α × List (MemEvent α) :=
  match c.entries.find? (fun e => e.1 = k) with
  | some (_, e) =>
      (true, ⟨c.maxSize, eraseKey c.entries k⟩, [MemEvent.delEv k e.value])
  | none => (false, c, [])

/-- JS `Cache.clear()` (cache.mjs lines 231-236). -/
def MemCache.clear {α : Type} (c : MemCache α) :
    MemCache α × List (MemEvent α) :=
  (⟨c.maxSize, []⟩, c.entries.map (fun e => MemEvent.delEv e.1 e.2.value))

/-- An arbitrary public cache operation, for stating state invariants. -/
inductive MemOp (α : Type) where
  | setOp (now : Nat) (k : String) (v : α) (ttl : Option Nat)
  | setDefaultOp (now : Nat) (k : String) (v : α)
  | getOp (now : Nat) (k : String)
  | delOp (k : String)
  | clearOp

def MemCache.applyOp {α : Type} (c : MemCache α) : MemOp α → MemCache α
  | .setOp now k v ttl => (c.set now k v ttl).1
  | .setDefaultOp now k v => (c.setD now k v).1
  | .getOp now k => (c.get now k).2.1
  | .delOp k => (c.del k).2.1
  | .clearOp => c.clear.1

def MemCache.runOps {α : Type} (c : MemCache α) (ops : List (MemOp α)) :
    MemCache α :=
  ops.foldl MemCache.applyOp c

/-! ### The dispatcher fragment of `SapixRoutes.routeHandle`
(SapixRoutes.js lines 321-346)

`table` is `Object.keys(this.routes[method])` — existence of the per-method
route table is the caller's guard.  `cache` is the URL-to-match-result part
of the shared global cache. -/

inductive ResolveOutcome where
  | notImplemented                  -- 501 'You never implemented it'
  | resolved (e : MatchEntry)
  deriving DecidableEq, Repr

/-- JS `url.split('?')[0]`. -/
def stripQuery (url : String) : String :=
  String.mk ((splitCh '?' url.data).headD [])

/-- Lines 326-346: resolve the match result for a URL, cache-first.  On a
miss the matcher runs; the result is stored (with the defaulted TTL) only
when the required key — `/`-prefixed, with the root key special-cased to the
empty string — is present in the route table; otherwise the request is
answered 501 and nothing is stored. -/
def routeResolve (table : List String) (cache : MemCache MatchEntry)
    (now : Nat) (url : String) : ResolveOutcome × MemCache MatchEntry :=
  let path := stripQuery url
  let g := cache.get now url
  match g.1 with
  | some rp => (ResolveOutcome.resolved rp, g.2.1)
  | none =>
    -- `matchURLToPatterns([path], keys).get(path)`; the lookup always
    -- succeeds because `path` itself was passed in, so the default is
    -- never consulted
    let rp := (alGet (matchURLToPatterns [path] table) path).getD
      (matchOne path table)
    let rk := if rp.required_key = "/" then "" else rp.required_key
    if table.contains ("/" ++ rk) then
      (ResolveOutcome.resolved rp, (g.2.1.setD now url rp).1)
    else
      (ResolveOutcome.notImplemented, g.2.1)

/-! ### `SapixRoutes.executeMiddlewares` (SapixRoutes.js lines 180-232)

An entry records the registration scope (the object key), the parsed
`@method` allow-list and `@secure` options, and — abstracting the callback's
behaviour — whether it invokes its `next` continuation. -/

structure MwEntry where
  scope : String
  allowedMethods : List String
  secureOpts : List String
  callsNext : Bool
  deriving DecidableEq, Repr

structure MwRequest where
  url : String
  method : String
  isSecure : Bool
  deriving DecidableEq, Repr

/-- The skip tests of lines 200-220: skip unless the URL starts with the
entry's scope and the method is allowed (or the list holds the sentinel
`all`); additionally skip a `HTTPS`-restricted entry on an insecure request.
(The second URL check of line 217 is subsumed by the first.) -/
def mwSkip (e : MwEntry) (r : MwRequest) : Bool :=
  let isUrlMatching := strStarts r.url e.scope
  let isMethodAllowed :=
    e.allowedMethods.contains r.method || e.allowedMethods.contains "all"
  !isUrlMatching || !isMethodAllowed ||
    (e.secureOpts.contains "HTTPS" && !r.isSecure)

/-- The `execute(index)` walk: returns the invoked entries in order and
whether the terminal handler ran.  A skipped entry advances the walk; an
invoked entry continues it only by calling `next`. -/
def executeMiddlewares (mws : List MwEntry) (r : MwRequest) :
    List MwEntry × Bool :=
  match mws with
  | [] => ([], true)
  | e :: rest =>
    if mwSkip e r then executeMiddlewares rest r
    else if e.callsNext then
      let w := executeMiddlewares rest r
      (e :: w.1, w.2)
    else ([e], false)

/-! ### The handler calling convention (SapixRoutes.js lines 380-392)

`routeHandle` builds
`final_handler = () => routeFunctionHandler(response, request, query,
routePathParameters, body)`: a single fixed argument list.  A JavaScript
function declaring `n` parameters binds the first `n` arguments it is
passed, so a handler of arity `n` observes a prefix of this one list. -/

inductive HandlerArg where
  | response | request | query | pathParams | body
  deriving DecidableEq, Repr

/-- The argument list of the `final_handler` call, in source order. -/
def dispatchCallArgs : List HandlerArg :=
  [HandlerArg.response, HandlerArg.request, HandlerArg.query,
   HandlerArg.pathParams, HandlerArg.body]

/-- The arguments a handler of declared parameter count `arity` observes. -/
def handlerReceivedArgs (arity : Nat) : List HandlerArg :=
  dispatchCallArgs.take arity

/-! ### Invariant predicates used by the proofs -/

/-- Every name mapped to a declared type in `dts` is mapped in `ps` to a
path-segment value that satisfies that type's validation rule. -/
def validatedMaps (dts : List (String × Option String))
    (ps : List (String × String)) : Prop :=
  ∀ name ty, alGet dts name = some (some ty) →
    ∃ v, alGet ps name = some v ∧ validateDataType v ty = true

/-- Invariant of the running best: the score never drops below the `-1`
sentinel, and an adopted candidate carries validated typed parameters. -/
def bestInv (b : Best) : Prop :=
  -1 ≤ b.score ∧ (b.mPattern ≠ none → validatedMaps b.dataTypes b.params)

/-! ### Helper lemmas -/

theorem string_eq_empty_of_data {a : String} (h : a.data = []) : a = "" :=
  String.ext (by simpa using h)

theorem string_mk_ne_empty {l : List Char} (h : l ≠ []) : String.mk l ≠ "" :=
  fun he => h (congrArg String.data he)

theorem string_data_ne_empty {s : String} (h : s.data ≠ []) : s ≠ "" :=
  fun he => h (by rw [he])

theorem append_ne_empty_left {a : String} (b : String) (h : a ≠ "") :
    a ++ b ≠ "" := by
  intro he
  apply h
  have hd : a.data ++ b.data = [] := by
    rw [← String.data_append, he]
  exact string_eq_empty_of_data (List.append_eq_nil.mp hd).1

theorem alErase_cons {α : Type} (a1 : String) (a2 : α) (t : List (String × α))
    (k : String) :
    alErase ((a1, a2) :: t) k =
      if a1 = k then alErase t k else (a1, a2) :: alErase t k := rfl

theorem alGet_cons {α : Type} (a1 : String) (a2 : α) (t : List (String × α))
    (q : String) :
    alGet ((a1, a2) :: t) q = if a1 = q then some a2 else alGet t q := rfl

theorem alGet_alErase_ne {α : Type} (l : List (String × α)) (k q : String)
    (h : q ≠ k) :
    alGet (alErase l k) q = alGet l q := by
  induction l with
  | nil => rfl
  | cons a t ih =>
    cases a with
    | mk a1 a2 =>
      rw [alErase_cons, alGet_cons]
      by_cases ha : a1 = k
      · rw [if_pos ha, ih, if_neg (fun hh => h (ha ▸ hh.symm))]
      · rw [if_neg ha, alGet_cons]
        by_cases hq : a1 = q
        · rw [if_pos hq, if_pos hq]
        · rw [if_neg hq, if_neg hq, ih]

theorem alGet_alSet_self {α : Type} (l : List (String × α)) (k : String)
    (v : α) : alGet (alSet k v l) k = some v := by
  show (if k = k then some v else _) = some v
  rw [if_pos rfl]

theorem alGet_alSet_ne {α : Type} (l : List (String × α)) (k q : String)
    (v : α) (h : q ≠ k) : alGet (alSet k v l) q = alGet l q := by
  show (if k = q then some v else alGet (alErase l k) q) = alGet l q
  rw [if_neg (fun hh => h hh.symm)]
  exact alGet_alErase_ne l k q h

theorem joinSlash_cons_ne_empty (x : String) (xs : List String) (h : x ≠ "") :
    joinSlash (x :: xs) ≠ "" := by
  cases xs with
  | nil => simpa [joinSlash]
  | cons y ys =>
    show x ++ "/" ++ joinSlash (y :: ys) ≠ ""
    exact append_ne_empty_left _ (append_ne_empty_left _ h)

theorem segsOf_mem_ne_empty {s : String} {p : String} (hp : p ∈ segsOf s) :
    p ≠ "" := by
  simp only [segsOf, List.mem_map, List.mem_filter] at hp
  rcases hp with ⟨l, ⟨_, hne⟩, rfl⟩
  exact string_mk_ne_empty (by simpa using hne)

theorem mapSeg_ne_empty {p : String} (h : p ≠ "") : mapSeg p ≠ "" := by
  unfold mapSeg
  by_cases hb : (strStarts p "[:" && strEnds p "]") = true
  · rw [if_pos hb]
    apply string_data_ne_empty
    rw [String.data_append]
    simp
  · rw [if_neg (by simpa using hb)]
    exact h

/-! ### Typed-parameter soundness through the matcher (claim C1 machinery) -/

theorem validatedMaps_nil : validatedMaps [] [] := by
  intro name ty h
  cases h

theorem validatedMaps_typed {dts ps} (p ty0 fp : String)
    (h : validatedMaps dts ps) (hv : validateDataType fp ty0 = true) :
    validatedMaps (alSet p (some ty0) dts) (alSet p fp ps) := by
  intro name ty hty
  by_cases hp : name = p
  · subst hp
    rw [alGet_alSet_self] at hty
    obtain rfl : ty0 = ty := by
      injection hty with h1
      injection h1
    exact ⟨fp, alGet_alSet_self _ _ _, hv⟩
  · rw [alGet_alSet_ne _ _ _ _ hp] at hty
    obtain ⟨v, hv1, hv2⟩ := h name ty hty
    exact ⟨v, by rw [alGet_alSet_ne _ _ _ _ hp]; exact hv1, hv2⟩

theorem validatedMaps_untyped {dts ps} (p fp : String)
    (h : validatedMaps dts ps) :
    validatedMaps (alSet p none dts) (alSet p fp ps) := by
  intro name ty hty
  by_cases hp : name = p
  · subst hp
    rw [alGet_alSet_self] at hty
    simp at hty
  · rw [alGet_alSet_ne _ _ _ _ hp] at hty
    obtain ⟨v, hv1, hv2⟩ := h name ty hty
    exact ⟨v, by rw [alGet_alSet_ne _ _ _ _ hp]; exact hv1, hv2⟩

theorem validatedMaps_else {dts ps} (h : validatedMaps dts ps) :
    validatedMaps (alSet "else" none dts) ps := by
  intro name ty hty
  by_cases hp : name = "else"
  · subst hp
    rw [alGet_alSet_self] at hty
    simp at hty
  · rw [alGet_alSet_ne _ _ _ _ hp] at hty
    exact h name ty hty

theorem matchPatternGo_validated (pps : List String) :
    ∀ (fps : List String) (score : Int) dts ps,
      validatedMaps dts ps →
      0 ≤ (matchPatternGo fps pps score dts ps).score →
      validatedMaps (matchPatternGo fps pps score dts ps).dataTypes
        (matchPatternGo fps pps score dts ps).params := by
  induction pps with
  | nil =>
    intro fps score dts ps h _
    exact h
  | cons pp ppRest ih =>
    intro fps score dts ps h hsc
    simp only [matchPatternGo] at hsc ⊢
    by_cases h1 : (strStarts pp "[:" && strEnds pp "]") = true
    · rw [if_pos h1] at hsc ⊢
      by_cases h2 : (typedParamOf pp = "" || typedTypeOf pp = "") = true
      · rw [if_pos h2] at hsc
        simp [rejectRes] at hsc
      · rw [if_neg (by simpa using h2)] at hsc ⊢
        by_cases h3 : (!validateDataType (fps.headD "") (typedTypeOf pp)) = true
        · rw [if_pos h3] at hsc
          simp [rejectRes] at hsc
        · rw [if_neg (by simpa using h3)] at hsc ⊢
          exact ih _ _ _ _
            (validatedMaps_typed _ _ _ h (by simpa using h3)) hsc
    · rw [if_neg (by simpa using h1)] at hsc ⊢
      by_cases h4 : strStarts pp ":" = true
      · rw [if_pos h4] at hsc ⊢
        by_cases h5 : untypedParamOf pp = ""
        · rw [if_pos h5] at hsc
          simp [rejectRes] at hsc
        · rw [if_neg h5] at hsc ⊢
          exact ih _ _ _ _ (validatedMaps_untyped _ _ h) hsc
      · rw [if_neg (by simpa using h4)] at hsc ⊢
        by_cases h6 : pp = fps.headD ""
        · rw [if_pos h6] at hsc ⊢
          exact ih _ _ _ _ h hsc
        · rw [if_neg h6] at hsc ⊢
          by_cases h7 : pp = ":else"
          · rw [if_pos h7] at hsc ⊢
            exact ih _ _ _ _ (validatedMaps_else h) hsc
          · rw [if_neg h7] at hsc
            simp [rejectRes] at hsc

/-! ### The candidate-selection loop (claims C1 and C3 machinery) -/

theorem candBest_score (fp : List String) (c : String) :
    (candBest fp c).score = scoreOf fp c := rfl

/-- JS `stepBest` in selection form: a candidate replaces the running best
exactly when its effective score is strictly higher. -/
theorem stepBest_eq (fp : List String) (acc : Best) (pat : String)
    (hacc : -1 ≤ acc.score) :
    stepBest fp acc pat =
      if acc.score < scoreOf fp pat then candBest fp pat else acc := by
  by_cases hlen : fp.length = (segsOf pat).length
  · simp only [stepBest, candBest, scoreOf, if_pos hlen]
  · simp only [stepBest, candBest, scoreOf, if_neg hlen]
    rw [if_neg (by omega)]

theorem bestInv_init : bestInv initBest :=
  ⟨le_refl _, fun h => absurd rfl h⟩

theorem bestInv_step (fp : List String) (acc : Best) (pat : String)
    (h : bestInv acc) : bestInv (stepBest fp acc pat) := by
  rw [stepBest_eq fp acc pat h.1]
  by_cases hlt : acc.score < scoreOf fp pat
  · rw [if_pos hlt]
    have hnn : 0 ≤ scoreOf fp pat := by
      have := h.1
      omega
    constructor
    · rw [candBest_score]; omega
    · intro _
      have hsc : 0 ≤ (matchPattern fp (segsOf pat)).score := by
        by_cases hlen : fp.length = (segsOf pat).length
        · rw [scoreOf, if_pos hlen] at hnn; exact hnn
        · rw [scoreOf, if_neg hlen] at hnn; omega
      exact matchPatternGo_validated _ _ _ _ _ validatedMaps_nil hsc
  · rw [if_neg hlt]; exact h

theorem bestInv_fold (fp : List String) (ps : List String) :
    ∀ acc : Best, bestInv acc → bestInv (ps.foldl (stepBest fp) acc) := by
  induction ps with
  | nil => intro acc h; exact h
  | cons p ps ih =>
    intro acc h
    rw [List.foldl_cons]
    exact ih _ (bestInv_step fp acc p h)

/-- The fold keeps the first candidate attaining the running maximum: the
result either is the accumulator itself or comes from a candidate `c` that
strictly beats the accumulator and every candidate listed before it, and
that no candidate beats. -/
theorem foldl_best_argmax (fp : List String) (ps : List String) :
    ∀ acc : Best, -1 ≤ acc.score →
      (∀ p ∈ ps, scoreOf fp p ≤ (ps.foldl (stepBest fp) acc).score) ∧
      acc.score ≤ (ps.foldl (stepBest fp) acc).score ∧
      (ps.foldl (stepBest fp) acc = acc ∨
        ∃ pre c post, ps = pre ++ c :: post ∧
          ps.foldl (stepBest fp) acc = candBest fp c ∧
          acc.score < scoreOf fp c ∧
          (∀ p ∈ pre, scoreOf fp p < scoreOf fp c)) := by
  induction ps with
  | nil =>
    intro acc _
    exact ⟨fun p hp => absurd hp (List.not_mem_nil p), le_refl _, Or.inl rfl⟩
  | cons p ps ih =>
    intro acc hacc
    rw [List.foldl_cons, stepBest_eq fp acc p hacc]
    by_cases hlt : acc.score < scoreOf fp p
    · rw [if_pos hlt]
      have hacc' : -1 ≤ (candBest fp p).score := by
        rw [candBest_score]; omega
      obtain ⟨M, A, D⟩ := ih (candBest fp p) hacc'
      rw [candBest_score] at A
      refine ⟨?_, by omega, ?_⟩
      · intro q hq
        rcases List.mem_cons.mp hq with rfl | hq'
        · exact le_trans A (le_refl _)
        · exact M q hq'
      · rcases D with hD | ⟨pre, c, post, hps, hb, hlt', hpre⟩
        · refine Or.inr ⟨[], p, ps, rfl, hD, hlt, ?_⟩
          intro q hq
          exact absurd hq (List.not_mem_nil q)
        · rw [candBest_score] at hlt'
          refine Or.inr ⟨p :: pre, c, post, by rw [hps, List.cons_append], hb, by omega, ?_⟩
          intro q hq
          rcases List.mem_cons.mp hq with rfl | hq'
          · exact hlt'
          · exact hpre q hq'
    · rw [if_neg hlt]
      obtain ⟨M, A, D⟩ := ih acc hacc
      refine ⟨?_, A, ?_⟩
      · intro q hq
        rcases List.mem_cons.mp hq with rfl | hq'
        · omega
        · exact M q hq'
      · rcases D with hD | ⟨pre, c, post, hps, hb, hlt', hpre⟩
        · exact Or.inl hD
        · refine Or.inr ⟨p :: pre, c, post, by rw [hps, List.cons_append], hb, hlt', ?_⟩
          intro q hq
          rcases List.mem_cons.mp hq with rfl | hq'
          · omega
          · exact hpre q hq'

theorem buildMappedPattern_ne_empty (c : String)
    (dts : List (String × Option String)) (h : segsOf c ≠ []) :
    buildMappedPattern (segsOf c) dts ≠ "" := by
  obtain ⟨x, xs, hx⟩ := List.exists_cons_of_ne_nil h
  have hxm : x ∈ segsOf c := by rw [hx]; exact List.mem_cons_self x xs
  rw [buildMappedPattern, hx, List.map_cons]
  exact joinSlash_cons_ne_empty _ _ (mapSeg_ne_empty (segsOf_mem_ne_empty hxm))

theorem scoreOf_nonneg_len {fp : List String} {c : String}
    (h : 0 ≤ scoreOf fp c) : fp.length = (segsOf c).length := by
  by_cases hlen : fp.length = (segsOf c).length
  · exact hlen
  · rw [scoreOf, if_neg hlen] at h
    omega

theorem matchURLToPatterns_single (f : String) (ps : List String) :
    alGet (matchURLToPatterns [f] ps) f = some (matchOne f ps) := by
  show (if f = f then some (matchOne f ps) else alGet [] f) =
    some (matchOne f ps)
  rw [if_pos rfl]

/-- Claim C1: whenever the matcher returns a genuine (non-degraded) match,
every extracted parameter whose segment carried a declared type satisfies
that type's validation rule; a candidate failing a per-segment type check is
rejected outright and can never become the selected pattern. -/
theorem matcher_typed_params_validated (file : String) (patterns : List String)
    (name ty : String)
    (hgen : (matchOne file patterns).pattern ≠ file)
    (hty : alGet (matchOne file patterns).dataTypes name = some (some ty)) :
    ∃ v, alGet (matchOne file patterns).params name = some v ∧
      validateDataType v ty = true := by
  have hinv := bestInv_fold (segsOf file) patterns initBest bestInv_init
  rw [matchOne, bestFor] at hgen hty ⊢
  set b := patterns.foldl (stepBest (segsOf file)) initBest with hbdef
  rcases hmp : b.mPattern with _ | bm
  · simp only [mkEntry, hmp] at hgen
    exact absurd rfl hgen
  · by_cases hbm : bm = ""
    · simp only [mkEntry, hmp, hbm, if_pos] at hgen
      exact absurd rfl hgen
    · simp only [mkEntry, hmp, if_neg hbm] at hty ⊢
      exact hinv.2 (by rw [hmp]; exact fun h => Option.noConfusion h) name ty hty

/-- Claim C3 (amended): for a request path with at least one segment, when
some candidate survives (non-negative effective score), the matcher returns
the genuine entry of the earliest candidate attaining the strictly highest
accumulated score — an equal-scoring later candidate never replaces it, and
the computation is a pure function of its inputs. -/
theorem matcher_selects_first_highest (file : String) (patterns : List String)
    (hseg : segsOf file ≠ [])
    (hex : ∃ p ∈ patterns, 0 ≤ scoreOf (segsOf file) p) :
    ∃ pre c post, patterns = pre ++ c :: post ∧
      matchOne file patterns = mkGenuine file c ∧
      (∀ p ∈ pre, scoreOf (segsOf file) p < scoreOf (segsOf file) c) ∧
      (∀ p ∈ patterns, scoreOf (segsOf file) p ≤ scoreOf (segsOf file) c) := by
  obtain ⟨p0, hp0, hp0s⟩ := hex
  obtain ⟨M, -, D⟩ :=
    foldl_best_argmax (segsOf file) patterns initBest (le_refl _)
  rcases D with hD | ⟨pre, c, post, hps, hb, -, hpre⟩
  · exfalso
    have hM := M p0 hp0
    rw [hD] at hM
    have : (initBest.score : Int) = -1 := rfl
    omega
  · have hcs : 0 ≤ scoreOf (segsOf file) c := by
      have hM := M p0 hp0
      rw [hb, candBest_score] at hM
      omega
    have hlen := scoreOf_nonneg_len hcs
    have hsegc : segsOf c ≠ [] := by
      intro h0
      rw [h0, List.length_nil] at hlen
      exact hseg (List.length_eq_zero.mp hlen)
    refine ⟨pre, c, post, hps, ?_, hpre, ?_⟩
    · rw [matchOne, bestFor, hb]
      show mkEntry file (candBest (segsOf file) c) = mkGenuine file c
      simp only [mkEntry, candBest,
        if_neg (buildMappedPattern_ne_empty c _ hsegc)]
      rfl
    · intro q hq
      have hM := M q hq
      rw [hb, candBest_score] at hM
      exact hM

/-- Claim C1 witness at a concrete input. -/
theorem matcher_typed_params_validated_witness :
    ∃ v, alGet (matchOne "/product/123" ["/product/[:id=number]"]).params
      "id" = some v ∧ validateDataType v "number" = true :=
  matcher_typed_params_validated "/product/123" ["/product/[:id=number]"]
    "id" "number" (by decide) (by decide)

/-- Claim C2, evaluated at the failing input: a `:else` pattern segment is
captured by the generic dynamic branch and adds weight 10 — exactly the
weight of an untyped `:name` segment, not a strictly lower fallback weight;
the dedicated `score += 5` branch of the source is unreachable. -/
theorem else_segment_scores_like_untyped :
    matchPattern ["x"] [":else"] = ⟨10, [("else", none)], [("else", "x")]⟩ ∧
    matchPattern ["x"] [":n"] = ⟨10, [("n", none)], [("n", "x")]⟩ ∧
    (matchPattern ["x"] [":else"]).score = (matchPattern ["x"] [":n"]).score ∧
    (matchPattern ["x"] [":else"]).score ≠ 5 := by
  decide

/-- Claim C3 counterexample: for the zero-segment path `/` and the candidate
list `[/]`, the lone candidate is non-rejected (effective score 0), yet the
matcher does not return that candidate's genuine entry — the winning mapped
pattern is the empty string, which is falsy, so the degraded entry (pattern
and required key both the raw path) is returned instead. -/
theorem matcher_root_path_counterexample :
    0 ≤ scoreOf (segsOf "/") "/" ∧
    matchOne "/" ["/"] ≠ mkGenuine "/" "/" ∧
    matchOne "/" ["/"] = ⟨"/", [], "/", []⟩ := by
  decide

/-- Claim C3 witness at a concrete input. -/
theorem matcher_selects_first_highest_witness :
    ∃ pre c post, ["/p/:a", "/p/[:b=number]"] = pre ++ c :: post ∧
      matchOne "/p/1" ["/p/:a", "/p/[:b=number]"] = mkGenuine "/p/1" c ∧
      (∀ p ∈ pre,
        scoreOf (segsOf "/p/1") p < scoreOf (segsOf "/p/1") c) ∧
      (∀ p ∈ ["/p/:a", "/p/[:b=number]"],
        scoreOf (segsOf "/p/1") p ≤ scoreOf (segsOf "/p/1") c) :=
  matcher_selects_first_highest "/p/1" ["/p/:a", "/p/[:b=number]"]
    (by decide) ⟨"/p/:a", by decide, by decide⟩

/-- Claim C4 counterexample: the value `123` is non-empty, yet a segment
declared with type `else` rejects it — the `else` validator accepts letters
only, not every non-empty value. -/
theorem else_type_rejects_nonletters :
    validateDataType "123" "else" = false ∧ "123" ≠ "" := by
  decide

/-- Claim C4 (amended): a typed `[:name=else]` segment accepts exactly what
type `string` accepts (one or more letters), while an untyped `:name`
segment accepts any segment value unconditionally. -/
theorem else_typed_letters_untyped_any (s pp fp : String)
    (h1 : strStarts pp ":" = true)
    (h2 : (strStarts pp "[:" && strEnds pp "]") = false)
    (h3 : untypedParamOf pp ≠ "") :
    validateDataType s "else" = validateDataType s "string" ∧
    matchPattern [fp] [pp] =
      ⟨10, [(untypedParamOf pp, none)], [(untypedParamOf pp, fp)]⟩ := by
  constructor
  · rfl
  · rw [matchPattern]
    rw [show matchPatternGo [fp] [pp] 0 [] [] =
      (if strStarts pp "[:" && strEnds pp "]" then
        (if typedParamOf pp = "" || typedTypeOf pp = "" then rejectRes
         else if !validateDataType fp (typedTypeOf pp) then rejectRes
         else matchPatternGo [] [] (0 + priorityOf (typedTypeOf pp))
           (alSet (typedParamOf pp) (some (typedTypeOf pp)) [])
           (alSet (typedParamOf pp) fp []))
       else if strStarts pp ":" then
        (if untypedParamOf pp = "" then rejectRes
         else matchPatternGo [] [] (0 + 10)
           (alSet (untypedParamOf pp) none [])
           (alSet (untypedParamOf pp) fp []))
       else if pp = fp then matchPatternGo [] [] (0 + 20) [] []
       else if pp = ":else" then
         matchPatternGo [] [] (0 + 5) (alSet "else" none []) []
       else rejectRes) from rfl]
    rw [h2]
    simp only [Bool.false_eq_true, if_false]
    rw [if_pos h1, if_neg h3]
    show (⟨0 + 10, [(untypedParamOf pp, none)],
      [(untypedParamOf pp, fp)]⟩ : MatchRes) = _
    norm_num

/-- Claim C4 witness at a concrete input. -/
theorem else_typed_letters_untyped_any_witness :
    validateDataType "abc" "else" = validateDataType "abc" "string" ∧
    matchPattern ["7"] [":x"] = ⟨10, [("x", none)], [("x", "7")]⟩ :=
  else_typed_letters_untyped_any "abc" ":x" "7" (by decide) (by decide)
    (by decide)

/-- Claim C9 counterexample: a four-parameter handler does not observe the
(response, query, params, body) convention; the dispatcher passes one fixed
argument list, so arity 4 observes (response, request, query, params). -/
theorem handler_arity4_counterexample :
    handlerReceivedArgs 4 ≠
      [HandlerArg.response, HandlerArg.query, HandlerArg.pathParams,
       HandlerArg.body] := by
  decide

/-- Claim C9 (amended): the dispatcher always invokes the resolved handler
with the single fixed argument list (response, request, query, params,
body); a handler of declared arity `n` observes the first `n` of these, so
arity selects a prefix of this one list and no reordered three-convention
dispatch exists. -/
theorem handler_fixed_call_convention :
    handlerReceivedArgs 1 = [HandlerArg.response] ∧
    handlerReceivedArgs 4 =
      [HandlerArg.response, HandlerArg.request, HandlerArg.query,
       HandlerArg.pathParams] ∧
    (∀ n, 5 ≤ n → handlerReceivedArgs n = dispatchCallArgs) := by
  refine ⟨rfl, rfl, ?_⟩
  intro n hn
  rw [handlerReceivedArgs]
  apply List.take_of_length_le
  simpa [dispatchCallArgs] using hn

/-- Claim C9 witness at a concrete arity. -/
theorem handler_fixed_call_convention_witness :
    handlerReceivedArgs 5 = dispatchCallArgs :=
  handler_fixed_call_convention.2.2 5 (le_refl 5)

/-- Claim C10: a declared type outside the thirteen-name vocabulary never
rejects the candidate — the validator's default branch accepts any value —
and the segment adds the default weight 10, the same weight an untyped
segment adds (shown at `[:id=foo]` versus `:id`). -/
theorem unknown_type_default_accept_weight (ty : String)
    (hty : ty ∉ knownDataTypes) :
    (∀ seg : String, validateDataType seg ty = true) ∧
    priorityOf ty = 10 ∧
    matchPattern ["zz-9"] ["[:id=foo]"] =
      ⟨10, [("id", some "foo")], [("id", "zz-9")]⟩ ∧
    (matchPattern ["zz-9"] [":id"]).score = 10 := by
  simp only [knownDataTypes, List.mem_cons, List.not_mem_nil, or_false,
    not_or] at hty
  obtain ⟨h1, h2, h3, h4, h5, h6, h7, h8, h9, h10, h11, h12, h13⟩ := hty
  refine ⟨?_, ?_, by decide, by decide⟩
  · intro seg
    rw [validateDataType]
    rw [if_neg h1, if_neg h2, if_neg h3, if_neg h4, if_neg h5, if_neg h6,
      if_neg h7, if_neg h8, if_neg h9, if_neg h10, if_neg h11, if_neg h12,
      if_neg h13]
  · have hnone : alGet dataTypePriority ty = none := by
      rw [dataTypePriority]
      rw [alGet_cons, if_neg (Ne.symm h1), alGet_cons, if_neg (Ne.symm h2),
        alGet_cons, if_neg (Ne.symm h6), alGet_cons, if_neg (Ne.symm h8),
        alGet_cons, if_neg (Ne.symm h5), alGet_cons, if_neg (Ne.symm h3),
        alGet_cons, if_neg (Ne.symm h4), alGet_cons, if_neg (Ne.symm h7),
        alGet_cons, if_neg (Ne.symm h9), alGet_cons, if_neg (Ne.symm h10),
        alGet_cons, if_neg (Ne.symm h11), alGet_cons, if_neg (Ne.symm h12),
        alGet_cons, if_neg (Ne.symm h13)]
      rfl
    rw [priorityOf, hnone]

/-- Claim C10 witness at a concrete unknown type. -/
theorem unknown_type_default_accept_weight_witness :
    validateDataType "any-value!" "foo" = true ∧ priorityOf "foo" = 10 :=
  ⟨(unknown_type_default_accept_weight "foo" (by decide)).1 "any-value!",
   (unknown_type_default_accept_weight "foo" (by decide)).2.1⟩

/-! ### Cache lemmas (claims C5, C6, C7) -/

theorem alErase_length_le {α : Type} (l : List (String × α)) (k : String) :
    (alErase l k).length ≤ l.length := by
  induction l with
  | nil => exact le_refl _
  | cons a t ih =>
    cases a with
    | mk a1 a2 =>
      rw [alErase_cons]
      by_cases ha : a1 = k
      · rw [if_pos ha]
        exact le_trans ih (Nat.le_succ _)
      · rw [if_neg ha]
        simpa using ih

theorem alErase_length_lt {α : Type} (l : List (String × α)) (k : String)
    (h : l.any (fun e => e.1 = k) = true) :
    (alErase l k).length < l.length := by
  induction l with
  | nil => simp at h
  | cons a t ih =>
    cases a with
    | mk a1 a2 =>
      rw [alErase_cons]
      by_cases ha : a1 = k
      · rw [if_pos ha]
        exact Nat.lt_succ_of_le (alErase_length_le t k)
      · rw [if_neg ha]
        simp only [List.length_cons]
        apply Nat.succ_lt_succ
        apply ih
        simp only [List.any_cons, ha, decide_False, Bool.false_or] at h
        exact h

theorem alErase_no_key {α : Type} (l : List (String × α)) (k : String) :
    ∀ e ∈ alErase l k, e.1 ≠ k := by
  induction l with
  | nil => intro e he; cases he
  | cons a t ih =>
    cases a with
    | mk a1 a2 =>
      rw [alErase_cons]
      by_cases ha : a1 = k
      · rw [if_pos ha]; exact ih
      · rw [if_neg ha]
        intro e he
        rcases List.mem_cons.mp he with rfl | he'
        · exact ha
        · exact ih e he'

theorem hasKey_false_no_key {α : Type} {c : MemCache α} {k : String}
    (h : c.hasKey k = false) : ∀ e ∈ c.entries, e.1 ≠ k := by
  intro e he
  rw [MemCache.hasKey] at h
  intro heq
  have : c.entries.any (fun e => e.1 = k) = true :=
    List.any_eq_true.mpr ⟨e, he, by simp [heq]⟩
  rw [h] at this
  cases this

theorem memCache_set_maxSize {α : Type} (c : MemCache α) (now : Nat)
    (k : String) (v : α) (ttl : Option Nat) :
    ((c.set now k v ttl).1).maxSize = c.maxSize := rfl

theorem memCache_set_size {α : Type} (c : MemCache α) (now : Nat) (k : String)
    (v : α) (ttl : Option Nat) (m : Nat) (hmax : c.maxSize = some m)
    (hm : 1 ≤ m) (h : c.entries.length ≤ m) :
    ((c.set now k v ttl).1).entries.length ≤ m := by
  simp only [MemCache.set]
  by_cases hk : c.hasKey k = true
  · rw [if_pos hk]
    simp only [List.length_append, List.length_cons, List.length_nil]
    have hlt : (alErase c.entries k).length < c.entries.length :=
      alErase_length_lt c.entries k (by simpa [MemCache.hasKey] using hk)
    rw [eraseKey]
    omega
  · rw [if_neg hk]
    by_cases hcap : c.atCapacity = true
    · rw [if_pos hcap]
      rw [MemCache.atCapacity, hmax] at hcap
      simp only [decide_eq_true_eq] at hcap
      cases hE : c.entries with
      | nil =>
        rw [hE] at hcap
        simp at hcap
        omega
      | cons lru rest =>
        show (rest ++ [(k, (⟨v, ttl.map (fun t => now + t)⟩ : MemEntry α))]).length ≤ m
        rw [List.length_append]
        have hlen : c.entries.length = rest.length + 1 := by
          rw [hE, List.length_cons]
        simp only [List.length_cons, List.length_nil]
        omega
    · rw [if_neg hcap]
      rw [MemCache.atCapacity, hmax] at hcap
      simp only [decide_eq_true_eq, not_le] at hcap
      simp only [List.length_append, List.length_cons, List.length_nil]
      omega

theorem any_of_find? {α : Type} {l : List (String × MemEntry α)} {k : String}
    {x : String × MemEntry α} (h : l.find? (fun e => e.1 = k) = some x) :
    l.any (fun e => e.1 = k) = true :=
  List.any_eq_true.mpr
    ⟨x, List.mem_of_find?_eq_some h, by simpa using List.find?_some h⟩

theorem memCache_get_size {α : Type} (c : MemCache α) (now : Nat)
    (k : String) :
    ((c.get now k).2.1).entries.length ≤ c.entries.length ∧
    ((c.get now k).2.1).maxSize = c.maxSize := by
  simp only [MemCache.get]
  split
  · exact ⟨le_refl _, rfl⟩
  · next ak e hf =>
    split
    · exact ⟨alErase_length_le c.entries k, rfl⟩
    · refine ⟨?_, rfl⟩
      rw [eraseKey, List.length_append]
      have := alErase_length_lt c.entries k (any_of_find? hf)
      simp only [List.length_cons, List.length_nil]
      omega

theorem memCache_del_size {α : Type} (c : MemCache α) (k : String) :
    ((c.del k).2.1).entries.length ≤ c.entries.length ∧
    ((c.del k).2.1).maxSize = c.maxSize := by
  simp only [MemCache.del]
  split
  · exact ⟨alErase_length_le c.entries k, rfl⟩
  · exact ⟨le_refl _, rfl⟩

theorem memCache_applyOp_size {α : Type} (c : MemCache α) (op : MemOp α)
    (m : Nat) (hmax : c.maxSize = some m) (hm : 1 ≤ m)
    (h : c.entries.length ≤ m) :
    ((c.applyOp op).entries.length ≤ m) ∧ (c.applyOp op).maxSize = some m := by
  cases op with
  | setOp now k v ttl =>
    exact ⟨memCache_set_size c now k v ttl m hmax hm h,
      by rw [show (c.applyOp (MemOp.setOp now k v ttl)).maxSize =
        c.maxSize from rfl, hmax]⟩
  | setDefaultOp now k v =>
    exact ⟨memCache_set_size c now k v (some 86400000) m hmax hm h,
      by rw [show (c.applyOp (MemOp.setDefaultOp now k v)).maxSize =
        c.maxSize from rfl, hmax]⟩
  | getOp now k =>
    exact ⟨le_trans (memCache_get_size c now k).1 h,
      by rw [show (c.applyOp (MemOp.getOp now k)).maxSize =
        ((c.get now k).2.1).maxSize from rfl, (memCache_get_size c now k).2,
        hmax]⟩
  | delOp k =>
    exact ⟨le_trans (memCache_del_size c k).1 h,
      by rw [show (c.applyOp (MemOp.delOp k)).maxSize =
        ((c.del k).2.1).maxSize from rfl, (memCache_del_size c k).2, hmax]⟩
  | clearOp =>
    exact ⟨by simp [MemCache.applyOp, MemCache.clear], by
      rw [show (c.applyOp MemOp.clearOp).maxSize = c.maxSize from rfl, hmax]⟩

theorem memCache_runOps_size {α : Type} (ops : List (MemOp α)) :
    ∀ (c : MemCache α) (m : Nat), c.maxSize = some m → 1 ≤ m →
      c.entries.length ≤ m → (c.runOps ops).entries.length ≤ m := by
  induction ops with
  | nil => intro c m _ _ h; exact h
  | cons op ops ih =>
    intro c m hmax hm h
    obtain ⟨h1, h2⟩ := memCache_applyOp_size c op m hmax hm h
    exact ih (c.applyOp op) m h2 hm h1

theorem find?_key_append {α : Type} (l : List (String × MemEntry α))
    (k : String) (x : MemEntry α) (h : ∀ e ∈ l, e.1 ≠ k) :
    (l ++ [(k, x)]).find? (fun e => e.1 = k) = some (k, x) := by
  induction l with
  | nil => simp [List.find?]
  | cons a t ih =>
    rw [List.cons_append]
    rw [List.find?_cons_of_neg _ (by simp [h a (List.mem_cons_self a t)])]
    exact ih (fun e he => h e (List.mem_cons_of_mem a he))

/-- After `set(k, v, ttl)` the cache holds exactly the freshly written entry
under `k`. -/
theorem memCache_find_set {α : Type} (c : MemCache α) (now : Nat) (k : String)
    (v : α) (ttl : Option Nat) :
    ((c.set now k v ttl).1).entries.find? (fun e => e.1 = k) =
      some (k, ⟨v, ttl.map (fun t => now + t)⟩) := by
  simp only [MemCache.set]
  apply find?_key_append
  by_cases hk : c.hasKey k = true
  · rw [if_pos hk]
    exact alErase_no_key c.entries k
  · rw [if_neg hk]
    by_cases hcap : c.atCapacity = true
    · rw [if_pos hcap]
      cases hE : c.entries with
      | nil =>
        intro e he
        exact hasKey_false_no_key (by simpa using hk) e (by rw [hE]; exact he)
      | cons lru rest =>
        intro e he
        exact hasKey_false_no_key (by simpa using hk) e
          (by rw [hE]; exact List.mem_cons_of_mem _ he)
    · rw [if_neg hcap]
      exact hasKey_false_no_key (by simpa using hk)

/-- Claim C5: with a configured maximum size `m ≥ 1`, the cache never holds
more than `m` entries after any sequence of set/get/delete/clear operations;
and a `set` of a fresh key on a full cache evicts exactly one entry — the
head of the insertion/access order, i.e. the least recently used one —
before inserting, emitting an eviction notification that carries the
evicted key and value. -/
theorem cache_lru_bound_and_evict {α : Type} (m : Nat) (hm : 1 ≤ m) :
    (∀ ops : List (MemOp α),
      ((MemCache.empty (some m) : MemCache α).runOps ops).entries.length
        ≤ m) ∧
    (∀ (c : MemCache α) (now : Nat) (k : String) (v : α) (ttl : Option Nat),
      c.maxSize = some m → c.entries.length = m → c.hasKey k = false →
      ∃ lru rest, c.entries = lru :: rest ∧
        c.set now k v ttl =
          (⟨some m, rest ++ [(k, ⟨v, ttl.map (fun t => now + t)⟩)]⟩,
            [MemEvent.evict lru.1 lru.2.value, MemEvent.setEv k v])) := by
  constructor
  · intro ops
    exact memCache_runOps_size ops _ m rfl hm (by simp [MemCache.empty])
  · intro c now k v ttl hmax hlen hkey
    have hkey' : ¬c.hasKey k = true := by simp [hkey]
    have hcap : c.atCapacity = true := by
      simp only [MemCache.atCapacity, hmax]
      simp [hlen]
    cases hE : c.entries with
    | nil =>
      rw [hE, List.length_nil] at hlen
      omega
    | cons lru rest =>
      refine ⟨lru, rest, rfl, ?_⟩
      simp only [MemCache.set, if_neg hkey', if_pos hcap, hE]
      rw [hmax]
      rfl

/-- Claim C5 witness: at maximum size 1, two fresh inserts stay within the
bound, and the fresh-key insert on a concrete full cache evicts exactly the
first-inserted entry with the expected notifications. -/
theorem cache_lru_bound_and_evict_witness :
    ((MemCache.empty (some 1) : MemCache Nat).runOps
      [MemOp.setOp 0 "a" 1 none, MemOp.setOp 1 "b" 2 none]).entries.length
      ≤ 1 ∧
    (∃ lru rest,
      (⟨some 1, [("a", ⟨5, none⟩)]⟩ : MemCache Nat).entries = lru :: rest ∧
      MemCache.set ⟨some 1, [("a", ⟨5, none⟩)]⟩ 3 "b" 7 none =
        (⟨some 1, rest ++ [("b", ⟨7, Option.map (fun t => 3 + t) none⟩)]⟩,
          [MemEvent.evict lru.1 lru.2.value, MemEvent.setEv "b" 7])) :=
  ⟨(cache_lru_bound_and_evict 1 (le_refl 1)).1 _,
   (cache_lru_bound_and_evict 1 (le_refl 1)).2 ⟨some 1, [("a", ⟨5, none⟩)]⟩
     3 "b" 7 none rfl (by decide) (by decide)⟩

/-- Claim C6: a key stored with an explicit null TTL never expires — a read
at any later time still returns it; a key stored without a TTL argument
carries expiry `now + 86400000` (24 hours); and a read of an entry whose
expiry has passed returns absent, deletes the entry, and emits an expiry
notification with the stored value. -/
theorem cache_ttl_semantics {α : Type} :
    (∀ (c : MemCache α) (now t : Nat) (k : String) (v : α),
      (((c.set now k v none).1).get t k).1 = some v) ∧
    (∀ (c : MemCache α) (now : Nat) (k : String) (v : α),
      ((c.setD now k v).1).entries.find? (fun e => e.1 = k) =
        some (k, ⟨v, some (now + 86400000)⟩)) ∧
    (∀ (c : MemCache α) (now texp : Nat) (k : String) (e : MemEntry α),
      c.entries.find? (fun e => e.1 = k) = some (k, e) →
      e.expiry = some texp → texp ≤ now →
      c.get now k =
        (none, ⟨c.maxSize, eraseKey c.entries k⟩,
          [MemEvent.expired k e.value])) := by
  refine ⟨?_, ?_, ?_⟩
  · intro c now t k v
    have hf := memCache_find_set c now k v none
    simp only [MemCache.get, hf]
    rfl
  · intro c now k v
    exact memCache_find_set c now k v (some 86400000)
  · intro c now texp k e hf hexp hle
    simp only [MemCache.get, hf, hexp]
    rw [if_pos (by simpa using hle)]

/-- Claim C6 witness at concrete inputs. -/
theorem cache_ttl_semantics_witness :
    ((((MemCache.empty none : MemCache Nat).set 0 "k" 9 none).1).get
      999999999 "k").1 = some 9 ∧
    (((MemCache.empty none : MemCache Nat).setD 5 "k" 9).1).entries.find?
      (fun e => e.1 = "k") = some ("k", ⟨9, some (5 + 86400000)⟩) ∧
    (⟨none, [("k", ⟨9, some 10⟩)]⟩ : MemCache Nat).get 10 "k" =
      (none, ⟨none, eraseKey [("k", ⟨9, some 10⟩)] "k"⟩,
        [MemEvent.expired "k" 9]) :=
  ⟨(cache_ttl_semantics (α := Nat)).1 (MemCache.empty none) 0 999999999 "k" 9,
   (cache_ttl_semantics (α := Nat)).2.1 (MemCache.empty none) 5 "k" 9,
   (cache_ttl_semantics (α := Nat)).2.2 ⟨none, [("k", ⟨9, some 10⟩)]⟩ 10 10
     "k" ⟨9, some 10⟩ (by decide) rfl (by decide)⟩

theorem find?_alErase_none {α : Type} (l : List (String × MemEntry α))
    (k : String) :
    (alErase l k).find? (fun e => e.1 = k) = none :=
  List.find?_eq_none.mpr (fun x hx => by simpa using alErase_no_key l k x hx)

theorem memCache_get_none_no_entry {α : Type} (c : MemCache α) (now : Nat)
    (k : String) (h : (c.get now k).1 = none) :
    ((c.get now k).2.1).entries.find? (fun e => e.1 = k) = none := by
  cases hf : c.entries.find? (fun e => e.1 = k) with
  | none =>
    simp only [MemCache.get, hf]
  | some a =>
    cases a with
    | mk ak e =>
      simp only [MemCache.get, hf] at h ⊢
      by_cases hex :
          (match e.expiry with
           | some t => decide (t ≤ now)
           | none => false) = true
      · rw [if_pos hex]
        exact find?_alErase_none c.entries k
      · rw [if_neg hex] at h
        cases h

/-- Claim C7: when the URL misses the route cache and the required key —
prefixed with `/`, with the root key `/` special-cased to the empty string —
is absent from the method's route table, `routeHandle` answers 501 and the
cache keeps no entry for that URL; when the key is present, the match result
is stored in the cache (with the defaulted TTL) and resolution proceeds. -/
theorem route_resolve_unregistered_501 (table : List String)
    (cache : MemCache MatchEntry) (now : Nat) (url : String)
    (hmiss : (cache.get now url).1 = none) :
    (table.contains
        ("/" ++ (if (matchOne (stripQuery url) table).required_key = "/"
          then "" else (matchOne (stripQuery url) table).required_key)) =
          false →
      routeResolve table cache now url =
        (ResolveOutcome.notImplemented, (cache.get now url).2.1) ∧
      ((cache.get now url).2.1).entries.find? (fun e => e.1 = url) = none) ∧
    (table.contains
        ("/" ++ (if (matchOne (stripQuery url) table).required_key = "/"
          then "" else (matchOne (stripQuery url) table).required_key)) =
          true →
      routeResolve table cache now url =
        (ResolveOutcome.resolved (matchOne (stripQuery url) table),
          ((cache.get now url).2.1.setD now url
            (matchOne (stripQuery url) table)).1)) := by
  have hrw : routeResolve table cache now url =
      if table.contains
          ("/" ++ (if (matchOne (stripQuery url) table).required_key = "/"
            then "" else (matchOne (stripQuery url) table).required_key))
      then
        (ResolveOutcome.resolved (matchOne (stripQuery url) table),
          ((cache.get now url).2.1.setD now url
            (matchOne (stripQuery url) table)).1)
      else (ResolveOutcome.notImplemented, (cache.get now url).2.1) := by
    simp only [routeResolve, hmiss, matchURLToPatterns_single,
      Option.getD_some]
  constructor
  · intro hc
    refine ⟨?_, memCache_get_none_no_entry cache now url hmiss⟩
    rw [hrw, if_neg (by rw [hc]; exact Bool.false_ne_true)]
  · intro hc
    rw [hrw, if_pos hc]

/-- Claim C7 witness: with an empty cache, a request whose degraded match
key is unregistered answers 501 without storing, and a registered typed
pattern resolves and is stored. -/
theorem route_resolve_unregistered_501_witness :
    (routeResolve ["/b"] (MemCache.empty none) 0 "/a/5" =
      (ResolveOutcome.notImplemented,
        ((MemCache.empty none : MemCache MatchEntry).get 0 "/a/5").2.1) ∧
      (((MemCache.empty none : MemCache MatchEntry).get 0
        "/a/5").2.1).entries.find? (fun e => e.1 = "/a/5") = none) ∧
    routeResolve ["/a/[:id=number]"] (MemCache.empty none) 0 "/a/5" =
      (ResolveOutcome.resolved
        (matchOne (stripQuery "/a/5") ["/a/[:id=number]"]),
        (((MemCache.empty none : MemCache MatchEntry).get 0
          "/a/5").2.1.setD 0 "/a/5"
          (matchOne (stripQuery "/a/5") ["/a/[:id=number]"])).1) :=
  ⟨(route_resolve_unregistered_501 ["/b"] (MemCache.empty none) 0 "/a/5"
      rfl).1 (by decide),
   (route_resolve_unregistered_501 ["/a/[:id=number]"] (MemCache.empty none)
      0 "/a/5" rfl).2 (by decide)⟩

/-! ### Middleware gating (claim C8) -/

theorem mwSkip_false {e : MwEntry} {r : MwRequest} (h : mwSkip e r = false) :
    strStarts r.url e.scope = true ∧
    (e.allowedMethods.contains r.method = true ∨
      e.allowedMethods.contains "all" = true) ∧
    (e.secureOpts.contains "HTTPS" = true → r.isSecure = true) := by
  rw [mwSkip] at h
  simp only [Bool.or_eq_false_iff, Bool.not_eq_false', Bool.and_eq_false_iff,
    Bool.not_eq_false] at h
  obtain ⟨⟨h1, h2⟩, h3⟩ := h
  refine ⟨h1, by simpa using h2, ?_⟩
  · intro hc
    rcases h3 with h | h
    · rw [hc] at h; cases h
    · exact h

/-- Claim C8: a middleware entry is invoked only when the request URL starts
with its scope, its method is allowed (or the allow-list holds `all`), and —
if it requires HTTPS — the request is secure; every skipped entry advances
the walk, so when every entry calls its continuation the terminal handler
still runs. -/
theorem middleware_gating (mws : List MwEntry) (r : MwRequest) :
    (∀ e ∈ (executeMiddlewares mws r).1,
      strStarts r.url e.scope = true ∧
      (e.allowedMethods.contains r.method = true ∨
        e.allowedMethods.contains "all" = true) ∧
      (e.secureOpts.contains "HTTPS" = true → r.isSecure = true)) ∧
    ((∀ e ∈ mws, e.callsNext = true) →
      (executeMiddlewares mws r).2 = true) := by
  induction mws with
  | nil =>
    constructor
    · intro f hf
      cases hf
    · intro _
      rfl
  | cons e rest ih =>
    constructor
    · intro f hf
      simp only [executeMiddlewares] at hf
      by_cases hs : mwSkip e r = true
      · rw [if_pos hs] at hf
        exact ih.1 f hf
      · rw [if_neg hs] at hf
        have hcond := mwSkip_false (by simpa using hs)
        by_cases hn : e.callsNext = true
        · rw [if_pos hn] at hf
          rcases List.mem_cons.mp hf with rfl | hf'
          · exact hcond
          · exact ih.1 f hf'
        · rw [if_neg hn] at hf
          rcases List.mem_cons.mp hf with rfl | hf'
          · exact hcond
          · cases hf'
    · intro hall
      simp only [executeMiddlewares]
      by_cases hs : mwSkip e r = true
      · rw [if_pos hs]
        exact ih.2 (fun f hf => hall f (List.mem_cons_of_mem e hf))
      · rw [if_neg hs, if_pos (hall e (List.mem_cons_self e rest))]
        exact ih.2 (fun f hf => hall f (List.mem_cons_of_mem e hf))

/-- Claim C8 witness: a `POST`-scoped middleware under `/secure` is skipped
for `GET /secure` while the terminal handler still runs. -/
theorem middleware_gating_witness :
    (executeMiddlewares [⟨"/secure", ["POST"], ["none"], true⟩]
      ⟨"/secure", "GET", false⟩).2 = true :=
  (middleware_gating [⟨"/secure", ["POST"], ["none"], true⟩]
    ⟨"/secure", "GET", false⟩).2 (by decide)
